import Mathlib

/-!
Shallow embedding of the YT-Archiver archival pipeline and proofs about it.

The model follows the Python sources:
* `state_manager.py` — the durable ledger (`StateManager`), a SQLite table
  `archived_videos(video_id PRIMARY KEY, youtube_title, upload_timestamp)`
  modelled as a list of rows; `INSERT OR IGNORE` becomes an insert-if-absent.
* `youtube_handler.py` — `VideoInfo`, `sanitize_filename`, `fetch_video_list`
  (sorting by `published_at` descending) and the retry loop of
  `download_video` with backoff `min(2 ** attempt, 60)`.
* `main.py` — `process_video` (the per-item fetch/upload/commit loop) and
  `process_videos` (the pass coordinator: filter archived items, dispatch,
  aggregate counts with the dry-run early stop at 5 results).
* `rclone_handler.py` — the control flow of `RcloneHandler.upload_file`
  including its input validation, its retry loop, the
  `UploadProgress.update` keyword-argument calls, and the exponential
  backoff `min(MIN_RETRY_DELAY * 2 ** attempt, MAX_RETRY_DELAY)` with
  jitter up to 10% of the base delay.

Python strings are modelled as Lean `String` (or `List Char` where character
level reasoning is needed); Python keyword-argument calls are modelled by the
list of parameter names of the callee and the list of keyword names at the
call site, a call binding successfully iff the two lists match up.
-/

/-! ### Ledger (state_manager.py) -/

/-- One row of the `archived_videos` table. -/
structure ArchiveRow where
  video_id : String
  youtube_title : String
  upload_timestamp : String
deriving Repr, DecidableEq

/-- The `archived_videos` table, keyed by `video_id` (primary key). -/
abbrev Ledger := List ArchiveRow

/-- Model of `StateManager.is_archived`: `SELECT 1 FROM archived_videos WHERE
video_id = ?` returning whether a row was found. -/
def is_archived (db : Ledger) (id : String) : Bool :=
  db.any (fun r => r.video_id == id)

/-- Model of `StateManager.add_archived`: `INSERT OR IGNORE` on the primary key
`video_id` — a no-op when a row with that id already exists. -/
def add_archived (db : Ledger) (id title ts : String) : Ledger :=
  if db.any (fun r => r.video_id == id) then db
  else db ++ [{ video_id := id, youtube_title := title, upload_timestamp := ts }]

/-- Parameter names of `StateManager.add_archived` (after `self`). -/
def addArchivedParams : List String :=
  ["video_id", "youtube_title", "upload_timestamp"]

/-- Keyword names used by the `state_db.add_archived(...)` call in
`main.py` `process_video` (lines 130-135). -/
def mainCommitKwargs : List String :=
  ["video_id", "title", "published_at", "remote_path"]

/-- Python keyword-argument binding for a call that passes every argument by
keyword, against a callee with no defaults: every keyword must name a
parameter and every parameter must be supplied. -/
def kwargsBindOk (params kwargs : List String) : Bool :=
  kwargs.all (fun k => params.contains k) && params.all (fun p => kwargs.contains p)

/-! ### VideoInfo (youtube_handler.py) -/

/-- The `VideoInfo` dataclass of `youtube_handler.py`. -/
structure VideoInfo where
  video_id : String
  title : String
  published_at : String
  duration : Option Nat
  filesize : Option Nat
  resolution : Option String
deriving Repr, DecidableEq

/-- Attribute names defined by the `VideoInfo` dataclass.  Note that
`channel_name` is not among them, although `main.py` line 124 reads
`video_info.channel_name`. -/
def videoInfoFields : List String :=
  ["video_id", "title", "published_at", "duration", "filesize", "resolution"]

/-! ### sanitize_filename and the download file name (youtube_handler.py) -/

/-- The characters removed by `re.sub` in `sanitize_filename`. -/
def invalidFileChars : List Char := ['\\', '/', ':', '*', '?', '"', '<', '>', '|']

/-- The ASCII whitespace stripped by Python `str.strip()`. -/
def pyWhitespace : List Char := [' ', '\t', '\n', '\r', '\x0b', '\x0c']

/-- Model of `re.sub(r'[\\/:*?\"<>|]', '_', title)`. -/
def replaceInvalid (l : List Char) : List Char :=
  l.map (fun c => if c ∈ invalidFileChars then '_' else c)

/-- Model of Python `l.rsplit(' ', 1)[0]`: everything before the last space,
or the whole string when it holds no space. -/
def rsplitSpaceHead (l : List Char) : List Char :=
  if ' ' ∈ l then ((l.reverse.dropWhile (fun c => c != ' ')).tail).reverse else l

/-- Model of Python `str.strip()` over its ASCII whitespace. -/
def stripPy (l : List Char) : List Char :=
  ((l.dropWhile (fun c => pyWhitespace.contains c)).reverse.dropWhile
    (fun c => pyWhitespace.contains c)).reverse

/-- Model of `YouTubeHandler.sanitize_filename`, character-for-character:
replace the invalid characters by an underscore, truncate to 150 characters
breaking at the last space when over the limit, then strip whitespace. -/
def sanitize_filename (title : List Char) : List Char :=
  let sanitized := replaceInvalid title
  let sanitized :=
    if sanitized.length > 150 then rsplitSpaceHead (sanitized.take 150) else sanitized
  stripPy sanitized

/-- The base name used by `download_video`'s output template
`f"{output_dir}/{safe_title} [{video_id}].%(ext)s"`: the sanitized title with
the video id appended in brackets. -/
def downloadBaseName (videoId title : List Char) : List Char :=
  sanitize_filename title ++ (' ' :: '[' :: videoId) ++ [']']

/-! ### fetch_video_list (youtube_handler.py) -/

/-- Lexicographic comparison of Python strings by code point (`a <= b`). -/
def lexLe : List Char → List Char → Bool
  | [], _ => true
  | _ :: _, [] => false
  | a :: as, b :: bs => if a < b then true else if b < a then false else lexLe as bs

/-- The sort key relation of `sorted(videos, key=lambda x: x.published_at,
reverse=True)`: `a` may precede `b` iff `b.published_at <= a.published_at`. -/
def pubDescR (a b : VideoInfo) : Prop :=
  lexLe b.published_at.data a.published_at.data = true

/-- Stable descending insertion used to model Python's stable `sorted` with
`reverse=True` on the `published_at` key. -/
def ordInsertDesc (v : VideoInfo) : List VideoInfo → List VideoInfo
  | [] => [v]
  | w :: ws =>
    if lexLe w.published_at.data v.published_at.data then v :: w :: ws
    else w :: ordInsertDesc v ws

/-- Model of `sorted(videos, key=lambda x: x.published_at, reverse=True)`. -/
def sortPubDesc (l : List VideoInfo) : List VideoInfo :=
  l.foldr ordInsertDesc []

/-- One raw `yt-dlp` channel entry as read by `_fetch_videos_yt_dlp`. -/
structure YdlEntry where
  id : String
  title : String
  upload_date : String
  duration : Option Nat
  filesize_approx : Option Nat
  resolution : Option String
deriving Repr, DecidableEq

/-- The upload-date conversion of `_fetch_videos_yt_dlp`: an 8-character
`YYYYMMDD` date becomes `YYYY-MM-DDT00:00:00Z`; anything else is kept. -/
def convUploadDate (u : String) : String :=
  if u.data.length = 8 then
    ⟨u.data.take 4 ++ '-' :: (u.data.drop 4).take 2 ++ '-' :: (u.data.drop 6).take 2
      ++ "T00:00:00Z".data⟩
  else u

/-- Model of `YouTubeHandler._fetch_videos_yt_dlp`: truncate the entries to
`maxResults` and build one `VideoInfo` per entry. -/
def fetchVideosYtDlp (entries : List YdlEntry) (maxResults : Nat) : List VideoInfo :=
  (entries.take maxResults).map (fun e =>
    { video_id := e.id, title := e.title, published_at := convUploadDate e.upload_date,
      duration := e.duration, filesize := e.filesize_approx, resolution := e.resolution })

/-- Model of `YouTubeHandler.fetch_video_list` on the `yt-dlp` source path:
fetch (truncating to `maxResults`) and sort by publish date, newest first. -/
def fetch_video_list (entries : List YdlEntry) (maxResults : Nat) : List VideoInfo :=
  sortPubDesc (fetchVideosYtDlp entries maxResults)

/-! ### download_video retry loop (youtube_handler.py lines 328-354) -/

/-- The backoff of `download_video`: `min(2 ** attempt, 60)` seconds, slept
before every attempt after the first. -/
def ytBackoff (attempt : Nat) : Nat := min (2 ^ attempt) 60

/-- One execution of the `download_video` retry loop, driven by an oracle
`extract` giving the outcome of `ydl.extract_info` per attempt (`none` for a
`DownloadError` or a falsy result).  Returns the number of extraction calls,
the list of backoff delays slept, and the final result. -/
def dlGo (extract : Nat → Option String) : Nat → Nat → Nat × List Nat × Option String
  | 0, _ => (0, [], none)
  | fuel + 1, attempt =>
    let ds : List Nat := if attempt > 0 then [ytBackoff attempt] else []
    match extract attempt with
    | some r => (1, ds, some r)
    | none =>
      let rest := dlGo extract fuel (attempt + 1)
      (rest.1 + 1, ds ++ rest.2.1, rest.2.2)

/-- Model of `download_video`'s `for attempt in range(max_retries + 1)` loop. -/
def download_video (extract : Nat → Option String) (maxRetries : Nat) :
    Nat × List Nat × Option String :=
  dlGo extract (maxRetries + 1) 0

/-- The delays produced by a fully failing run of the loop, starting at a given
attempt index with a given number of remaining iterations. -/
def dlDelaysSeq : Nat → Nat → List Nat
  | _, 0 => []
  | a, fuel + 1 => (if a > 0 then [ytBackoff a] else []) ++ dlDelaysSeq (a + 1) fuel

/-! ### process_video (main.py lines 81-148) -/

/-- Stubbed collaborators of one `process_video` job: the fetcher
(`yt.download_video`), the local file check (`os.path.exists`), and the
uploader (`rclone.upload_file`), each indexed by the attempt number. -/
structure Stubs where
  download : Nat → Option String
  pathExists : String → Bool
  upload : Nat → Bool
  uploadRemotePath : String

/-- Mutable effects of one job: how often the fetcher and the uploader were
invoked, and the ledger contents. -/
structure JobState where
  fetchCalls : Nat
  uploadCalls : Nat
  ledger : Ledger
deriving Repr, DecidableEq

/-- One iteration of `process_video`'s attempt loop.  Returns the updated
state and `some result` on an early `return`, `none` when the attempt failed
and the loop continues.  The body mirrors main.py lines 96-146: the shutdown
check, the dry-run early return, the download with its falsy/existence check,
then the upload branch.  Computing the remote subpath reads
`video_info.channel_name`, an attribute `VideoInfo` does not define, so that
branch raises `AttributeError`, which the enclosing `except` turns into a
failed attempt; it is modelled by the (false) membership test of
`"channel_name"` in `videoInfoFields`.  Likewise the ledger commit passes the
keywords `mainCommitKwargs`, which do not bind against `addArchivedParams`,
raising `TypeError` inside the same `try`. -/
def processAttempt (stubs : Stubs) (v : VideoInfo) (dryRun shutdownRequested : Bool)
    (attempt : Nat) (st : JobState) : JobState × Option (Bool × String) :=
  if shutdownRequested then (st, some (false, "Shutdown requested"))
  else if dryRun then
    (st, some (true, "[DRY RUN] Successfully processed: " ++ v.title))
  else
    let st := { st with fetchCalls := st.fetchCalls + 1 }
    match stubs.download attempt with
    | none => (st, none)
    | some p =>
      if p == "" || !stubs.pathExists p then (st, none)
      else if videoInfoFields.contains "channel_name" then
        let st := { st with uploadCalls := st.uploadCalls + 1 }
        if stubs.upload attempt then
          if kwargsBindOk addArchivedParams mainCommitKwargs then
            let st := { st with
              ledger := add_archived st.ledger v.video_id v.title v.published_at }
            (st, some (true, "Successfully processed: " ++ v.title))
          else (st, none)
        else (st, none)
      else (st, none)

/-- The attempt loop of `process_video`: `for attempt in range(1,
max_retries + 1)`, falling through to the failure return when the budget is
exhausted. -/
def processVideoGo (stubs : Stubs) (v : VideoInfo) (dryRun shutdownRequested : Bool)
    (maxRetries : Nat) : Nat → Nat → JobState → JobState × Bool × String
  | 0, _, st =>
    (st, false, "Failed to process video after " ++ toString maxRetries
      ++ " attempts: " ++ v.title)
  | fuel + 1, attempt, st =>
    match processAttempt stubs v dryRun shutdownRequested attempt st with
    | (st', some r) => (st', r)
    | (st', none) =>
      processVideoGo stubs v dryRun shutdownRequested maxRetries fuel (attempt + 1) st'

/-- Model of `process_video`. -/
def process_video (stubs : Stubs) (v : VideoInfo) (ledger : Ledger) (maxRetries : Nat)
    (dryRun shutdownRequested : Bool) : JobState × Bool × String :=
  processVideoGo stubs v dryRun shutdownRequested maxRetries maxRetries 1
    { fetchCalls := 0, uploadCalls := 0, ledger := ledger }

/-! ### process_videos (main.py lines 150-211) -/

/-- Run the dispatched jobs.  Mirrors the `executor.submit(process_video,
video, yt, rclone, state_db, download_dir, max_retries)` call of main.py
lines 178-184: the `dry_run` argument is NOT forwarded, so every job runs
with `dry_run=False`.  Returns the final ledger, the ids for which the
fetcher ran, the ids for which the uploader ran, and the per-job results. -/
def runJobs (stubsFor : VideoInfo → Stubs) (maxRetries : Nat) (shutdownRequested : Bool) :
    List VideoInfo → Ledger → Ledger × List String × List String × List Bool
  | [], led => (led, [], [], [])
  | v :: vs, led =>
    let r := process_video (stubsFor v) v led maxRetries false shutdownRequested
    let rest := runJobs stubsFor maxRetries shutdownRequested vs r.1.ledger
    (rest.1,
     (if r.1.fetchCalls > 0 then [v.video_id] else []) ++ rest.2.1,
     (if r.1.uploadCalls > 0 then [v.video_id] else []) ++ rest.2.2.1,
     r.2.1 :: rest.2.2.2)

/-- The result-aggregation loop of `process_videos`: count successes and
failures, stopping early in dry-run mode once `success_count + failure_count`
reaches 5 (main.py lines 202-206). -/
def countGo (dryRun : Bool) (s f : Nat) : List Bool → Nat × Nat
  | [] => (s, f)
  | r :: rs =>
    let s' := cond r (s + 1) s
    let f' := cond r f (f + 1)
    if dryRun ∧ 5 ≤ s' + f' then (s', f') else countGo dryRun s' f' rs

/-- Aggregate a list of job results into `(success_count, failure_count)`. -/
def countResults (dryRun : Bool) (rs : List Bool) : Nat × Nat :=
  countGo dryRun 0 0 rs

/-- Outcome of one pass. -/
structure PassResult where
  success : Nat
  failure : Nat
  fetchedIds : List String
  uploadedIds : List String
  ledger : Ledger
deriving Repr, DecidableEq

/-- Model of `process_videos`: filter out already-archived videos, dispatch
the rest (without forwarding `dry_run`), and aggregate the results. -/
def process_videos (stubsFor : VideoInfo → Stubs) (videos : List VideoInfo)
    (ledger : Ledger) (maxRetries : Nat) (dryRun shutdownRequested : Bool) : PassResult :=
  let videosToProcess := videos.filter (fun v => !is_archived ledger v.video_id)
  let r := runJobs stubsFor maxRetries shutdownRequested videosToProcess ledger
  let c := countResults dryRun r.2.2.2
  { success := c.1, failure := c.2, fetchedIds := r.2.1, uploadedIds := r.2.2.1,
    ledger := r.1 }

/-! ### rclone_handler.py: upload_file control flow and backoff -/

/-- Python exception kinds relevant to the model. -/
inductive PyExc where
  | attributeError
  | typeError
  | fileNotFoundError
  | permissionError
deriving Repr, DecidableEq

/-- The slim model of an `UploadResult` value. -/
structure UploadResultM where
  success : Bool
  retries : Nat
deriving Repr, DecidableEq

/-- Parameter names of `UploadProgress.update` (after `self`), rclone_handler
lines 127-135.  There is no `message` parameter. -/
def progressUpdateParams : List String :=
  ["transferred", "size", "speed", "percent", "eta", "done", "error", "status"]

/-- A call to `progress.update(...)` with the given keyword names: it raises
`TypeError` when a keyword does not name a parameter. -/
def progressUpdate (kwargs : List String) : Except PyExc Unit :=
  if kwargs.all (fun k => progressUpdateParams.contains k) then Except.ok ()
  else Except.error PyExc.typeError

/-- Environment of one `upload_file` call: the validation oracles, whether
the remote directory can be created, the size check for the skip path, and
the per-attempt outcome of the `rclone copy` command. -/
structure UploadEnv where
  isFile : Bool
  readable : Bool
  fileSize : Nat
  ensureOk : Bool
  remoteSize : Option Nat
  transfer : Nat → Bool

/-- The code after the retry loop (rclone_handler lines 879-905, with the
stop event never set): a final `progress.update(status=..., done=...,
error=..., message=...)` — whose `message` keyword raises — then the
`UploadResult.from_exception` return. -/
def upAfterLoop (attemptsMade transferCalls : Nat) : Except PyExc UploadResultM × Nat :=
  match progressUpdate ["status", "done", "error", "message"] with
  | Except.error e => (Except.error e, transferCalls)
  | Except.ok _ => (Except.ok { success := false, retries := attemptsMade - 1 }, transferCalls)

/-- The body of one `try` block inside the retry loop (lines 771-852): on a
retry, first a `progress.update(status=..., message=...)`; then the transfer;
on transfer success the completion `progress.update(..., message=...)` and
the success return.  Any exception is caught by the inner `except` and
yields `none` (a failed attempt).  The second component counts `rclone copy`
invocations. -/
def upAttempt (env : UploadEnv) (attempt count : Nat) : Option UploadResultM × Nat :=
  match (if attempt > 0 then progressUpdate ["status", "message"] else Except.ok ()) with
  | Except.error _ => (none, count)
  | Except.ok _ =>
    let count := count + 1
    if env.transfer attempt then
      match progressUpdate ["transferred", "percent", "speed", "done", "status", "message"] with
      | Except.error _ => (none, count)
      | Except.ok _ => (some { success := true, retries := attempt }, count)
    else (none, count)

/-- The retry loop `while attempt < max_attempts and not self._stop_event`
(lines 770-877).  After a failed attempt, when another attempt remains, the
backoff block runs `progress.update(status=..., message=...)` (line 870)
OUTSIDE the inner `try`, so its `TypeError` escapes to the outer handler. -/
def upLoop (env : UploadEnv) (maxAttempts : Nat) :
    Nat → Nat → Nat → Except PyExc UploadResultM × Nat
  | 0, attempt, count => upAfterLoop attempt count
  | fuel + 1, attempt, count =>
    if maxAttempts ≤ attempt then upAfterLoop attempt count
    else
      match upAttempt env attempt count with
      | (some r, count') => (Except.ok r, count')
      | (none, count') =>
        let attempt' := attempt + 1
        if attempt' < maxAttempts then
          match progressUpdate ["status", "message"] with
          | Except.error e => (Except.error e, count')
          | Except.ok _ => upLoop env maxAttempts fuel attempt' count'
        else upLoop env maxAttempts fuel attempt' count'

/-- Model of `RcloneHandler.upload_file` (lines 627-931).  Validation errors
are raised before any transfer; the remaining body runs under the outer
`try`, whose `except` handler (lines 907-931) itself calls
`progress.update(..., message=...)`, so an exception reaching it is replaced
by the `TypeError` that call raises.  The second component is the number of
`rclone copy` invocations. -/
def upload_file (env : UploadEnv) (overwrite : Bool) (retries : Nat) :
    Except PyExc UploadResultM × Nat :=
  if !env.isFile then (Except.error PyExc.fileNotFoundError, 0)
  else if !env.readable then (Except.error PyExc.permissionError, 0)
  else
    let maxAttempts := max 1 (retries + 1)
    let body : Except PyExc UploadResultM × Nat :=
      if !env.ensureOk then (Except.ok { success := false, retries := 0 }, 0)
      else if !overwrite && env.remoteSize == some env.fileSize then
        (Except.ok { success := true, retries := 0 }, 0)
      else upLoop env maxAttempts (maxAttempts + 1) 0 0
    match body with
    | (Except.ok r, c) => (Except.ok r, c)
    | (Except.error _, c) =>
      match progressUpdate ["status", "done", "error", "message"] with
      | Except.error e2 => (Except.error e2, c)
      | Except.ok _ => (Except.ok { success := false, retries := 0 }, c)

/-- `MIN_RETRY_DELAY` of rclone_handler.py. -/
def minRetryDelay : ℚ := 1

/-- `MAX_RETRY_DELAY` of rclone_handler.py. -/
def maxRetryDelay : ℚ := 60

/-- The computed backoff of rclone_handler.py (lines 469 and 858):
`min(MIN_RETRY_DELAY * (2 ** attempt), MAX_RETRY_DELAY)`, modelled over exact
rationals. -/
def backoffBase (attempt : Nat) : ℚ :=
  min (minRetryDelay * 2 ^ attempt) maxRetryDelay

/-! ### Concrete fixtures used by the counterexample and bug-witness theorems -/

/-- A sample unarchived catalog item. -/
def demoVideo : VideoInfo :=
  { video_id := "v1", title := "Test Video", published_at := "2024-01-01T00:00:00Z",
    duration := none, filesize := none, resolution := none }

/-- Stubs whose fetch and upload always succeed. -/
def okStubs : Stubs :=
  { download := fun _ => some "downloads/f.mp4", pathExists := fun _ => true,
    upload := fun _ => true, uploadRemotePath := "mega:uploads/2024/f.mp4" }

/-- Stubs whose fetch always fails. -/
def failingFetchStubs : Stubs :=
  { download := fun _ => none, pathExists := fun _ => true,
    upload := fun _ => false, uploadRemotePath := "" }

/-- Upload environment: the local path does not name a file. -/
def envMissingFile : UploadEnv :=
  { isFile := false, readable := true, fileSize := 1, ensureOk := true,
    remoteSize := none, transfer := fun _ => false }

/-- Upload environment: the local file exists but is unreadable. -/
def envUnreadable : UploadEnv :=
  { isFile := true, readable := false, fileSize := 1, ensureOk := true,
    remoteSize := none, transfer := fun _ => false }

/-- Upload environment: a valid local file whose transfer always fails. -/
def envFailingTransfer : UploadEnv :=
  { isFile := true, readable := true, fileSize := 1, ensureOk := true,
    remoteSize := none, transfer := fun _ => false }

/-! ## Helper lemmas -/

theorem countGo_dry_sum (rs : List Bool) : ∀ (s f : Nat), s + f < 5 →
    (countGo true s f rs).1 + (countGo true s f rs).2 = min (s + f + rs.length) 5 := by
  induction rs with
  | nil => intro s f _; simp [countGo]; omega
  | cons r rs ih =>
    intro s f h
    cases r
    · simp only [countGo, cond_false]
      split_ifs with h5
      · rcases h5 with ⟨-, h5⟩
        simp only [List.length_cons]
        omega
      · have h5n : s + (f + 1) < 5 := by
          by_contra hc
          exact h5 ⟨trivial, by omega⟩
        rw [ih s (f + 1) h5n]
        simp only [List.length_cons]
        omega
    · simp only [countGo, cond_true]
      split_ifs with h5
      · rcases h5 with ⟨-, h5⟩
        simp only [List.length_cons]
        omega
      · have h5n : s + 1 + f < 5 := by
          by_contra hc
          exact h5 ⟨trivial, by omega⟩
        rw [ih (s + 1) f h5n]
        simp only [List.length_cons]
        omega

theorem countResults_dry_le (rs : List Bool) :
    (countResults true rs).1 + (countResults true rs).2 ≤ 5 := by
  have h := countGo_dry_sum rs 0 0 (by omega)
  simp only [countResults]
  omega

theorem runJobs_ids_sub (stubsFor : VideoInfo → Stubs) (maxRetries : Nat) (sd : Bool) :
    ∀ (vs : List VideoInfo) (led : Ledger) (x : String),
      (x ∈ (runJobs stubsFor maxRetries sd vs led).2.1 ∨
        x ∈ (runJobs stubsFor maxRetries sd vs led).2.2.1) →
      ∃ v ∈ vs, v.video_id = x := by
  intro vs
  induction vs with
  | nil => intro led x hx; simp [runJobs] at hx
  | cons v vs ih =>
    intro led x hx
    simp only [runJobs] at hx
    rcases hx with hx | hx
    · rcases List.mem_append.mp hx with h1 | h2
      · split_ifs at h1 with hc
        · exact ⟨v, List.mem_cons_self v vs, (List.mem_singleton.mp h1).symm⟩
        · simp at h1
      · rcases ih _ x (Or.inl h2) with ⟨w, hw, hid⟩
        exact ⟨w, List.mem_cons_of_mem v hw, hid⟩
    · rcases List.mem_append.mp hx with h1 | h2
      · split_ifs at h1 with hc
        · exact ⟨v, List.mem_cons_self v vs, (List.mem_singleton.mp h1).symm⟩
        · simp at h1
      · rcases ih _ x (Or.inr h2) with ⟨w, hw, hid⟩
        exact ⟨w, List.mem_cons_of_mem v hw, hid⟩

theorem processVideoGo_fail (stubs : Stubs) (v : VideoInfo) (mr : Nat)
    (hd : ∀ n, stubs.download n = none) :
    ∀ (fuel attempt : Nat) (st : JobState),
      processVideoGo stubs v false false mr fuel attempt st
        = ({ st with fetchCalls := st.fetchCalls + fuel }, false,
            "Failed to process video after " ++ toString mr ++ " attempts: " ++ v.title) := by
  intro fuel
  induction fuel with
  | zero => intro attempt st; simp [processVideoGo]
  | succ fuel ih =>
    intro attempt st
    simp only [processVideoGo, processAttempt, hd]
    simp only [Bool.false_eq_true, if_false]
    rw [ih]
    have : st.fetchCalls + 1 + fuel = st.fetchCalls + (fuel + 1) := by omega
    simp [this]

theorem dlGo_fail (extract : Nat → Option String) (he : ∀ n, extract n = none) :
    ∀ (fuel a : Nat), dlGo extract fuel a = (fuel, dlDelaysSeq a fuel, none) := by
  intro fuel
  induction fuel with
  | zero => intro a; rfl
  | succ fuel ih =>
    intro a
    simp only [dlGo, he, dlDelaysSeq]
    rw [ih]

theorem dlDelaysSeq_pos (fuel : Nat) : ∀ a, 0 < a →
    dlDelaysSeq a fuel = (List.range' a fuel).map ytBackoff := by
  induction fuel with
  | zero => intro a _; rfl
  | succ fuel ih =>
    intro a ha
    simp only [dlDelaysSeq, if_pos ha, List.range'_succ, List.map_cons]
    rw [ih (a + 1) (by omega)]
    simp

theorem dlDelaysSeq_zero (fuel : Nat) :
    dlDelaysSeq 0 (fuel + 1) = (List.range' 1 fuel).map ytBackoff := by
  have h0 : dlDelaysSeq 0 (fuel + 1) = dlDelaysSeq 1 fuel := by simp [dlDelaysSeq]
  cases fuel with
  | zero => simp [h0, dlDelaysSeq]
  | succ m => rw [h0, dlDelaysSeq_pos (m + 1) 1 (by omega)]

theorem ytBackoff_mono (a : Nat) : ytBackoff a ≤ ytBackoff (a + 1) :=
  min_le_min (Nat.pow_le_pow_right (by omega) (Nat.le_succ a)) (le_refl 60)

theorem chain_map_ytBackoff : ∀ (n a : Nat),
    List.Chain' (· ≤ ·) ((List.range' a n).map ytBackoff) := by
  intro n
  induction n with
  | zero => intro a; simp
  | succ n ih =>
    intro a
    cases n with
    | zero => simp
    | succ m =>
      rw [List.range'_succ, List.map_cons]
      rw [List.range'_succ, List.map_cons]
      rw [List.chain'_cons]
      refine ⟨ytBackoff_mono a, ?_⟩
      have h := ih (a + 1)
      rw [List.range'_succ, List.map_cons] at h
      exact h

/-! ## Claim theorems -/


/-- C1: for every video id and every pair of (title, timestamp) arguments,
calling `StateManager.add_archived` twice with the same id leaves exactly one
`archived_videos` row for that id (assuming the primary-key invariant held
before), the second call is a no-op rather than an error, and `is_archived`
returns true after the first call and stays true after the second. -/
theorem add_archived_idempotent (db : Ledger) (id t1 ts1 t2 ts2 : String)
    (h : db.countP (fun r => r.video_id == id) ≤ 1) :
    ((add_archived (add_archived db id t1 ts1) id t2 ts2).countP
        (fun r => r.video_id == id) = 1) ∧
    is_archived (add_archived db id t1 ts1) id = true ∧
    is_archived (add_archived (add_archived db id t1 ts1) id t2 ts2) id = true := by
  by_cases hmem : db.any (fun r => r.video_id == id) = true
  · have e1 : add_archived db id t1 ts1 = db := by simp [add_archived, hmem]
    have e2 : add_archived db id t2 ts2 = db := by simp [add_archived, hmem]
    have hpos : 0 < db.countP (fun r => r.video_id == id) :=
      List.countP_pos_iff.mpr (List.any_eq_true.mp hmem)
    refine ⟨?_, ?_, ?_⟩
    · rw [e1, e2]; omega
    · rw [e1]; exact hmem
    · rw [e1, e2]; exact hmem
  · have hf : db.any (fun r => r.video_id == id) = false :=
      Bool.eq_false_iff.mpr hmem
    set l1 := add_archived db id t1 ts1 with hl1
    have e1 : l1 =
        db ++ [{ video_id := id, youtube_title := t1, upload_timestamp := ts1 }] := by
      rw [hl1]; simp [add_archived, hf]
    have hany : (List.any l1 fun r => r.video_id == id) = true := by
      simp [e1, List.any_append]
    have harch : is_archived l1 id = true := by
      simpa [is_archived] using hany
    have e2 : add_archived l1 id t2 ts2 = l1 := by
      simp [add_archived, hany]
    have hzero : db.countP (fun r => r.video_id == id) = 0 :=
      List.countP_eq_zero.mpr (List.any_eq_false.mp hf)
    refine ⟨?_, harch, ?_⟩
    · rw [e2, e1, List.countP_append, hzero, List.countP_singleton]
      simp
    · rw [e2]; exact harch

/-- Witness for `add_archived_idempotent` at a concrete input. -/
theorem add_archived_idempotent_witness :
    (([] : Ledger).countP (fun r => r.video_id == "abc123") ≤ 1) ∧
    (((add_archived (add_archived [] "abc123" "t1" "s1") "abc123" "t2" "s2").countP
        (fun r => r.video_id == "abc123") = 1) ∧
      is_archived (add_archived [] "abc123" "t1" "s1") "abc123" = true ∧
      is_archived (add_archived (add_archived [] "abc123" "t1" "s1") "abc123" "t2" "s2")
        "abc123" = true) :=
  ⟨by decide, add_archived_idempotent [] "abc123" "t1" "s1" "t2" "s2" (by decide)⟩

/-- C3 counterexample: with `max_retries = 3` and a fetch stub that always
fails, `process_video` invokes the fetch step exactly 3 times — not the
`maxRetries + 1 = 4` times the claim states. -/
theorem process_video_retry_count_cex :
    (process_video failingFetchStubs demoVideo [] 3 false false).1.fetchCalls = 3 ∧
    ¬ ((process_video failingFetchStubs demoVideo [] 3 false false).1.fetchCalls
        = 3 + 1) := by
  decide

/-- C4: evaluating a dry-run pass over one unarchived item whose stubs would
succeed — because `process_videos` does not forward `dry_run` to
`process_video`, the pass still invokes the fetcher (`download_video`) for
the item, contradicting the claim that no Fetcher invocation occurs. -/
theorem dry_run_pass_still_fetches :
    (process_videos (fun _ => okStubs) [demoVideo] [] 3 true false).fetchedIds
      = ["v1"] ∧
    (process_videos (fun _ => okStubs) [demoVideo] [] 3 true false).failure = 1 := by
  decide

/-- C5: the committing call of main.py binds the keywords
`(video_id, title, published_at, remote_path)` against
`StateManager.add_archived`, whose parameters are
`(video_id, youtube_title, upload_timestamp)` — the binding fails
(`TypeError` at runtime), and a job whose fetch and upload stubs both
succeed still ends reported failed, with no `ArchiveRecord` persisted (and
the uploader is not even reached, because the remote-subpath computation
reads the undefined attribute `channel_name` first). -/
theorem commit_call_never_binds :
    kwargsBindOk addArchivedParams mainCommitKwargs = false ∧
    (process_video okStubs demoVideo [] 3 false false).2.1 = false ∧
    (process_video okStubs demoVideo [] 3 false false).1.ledger = [] ∧
    (process_video okStubs demoVideo [] 3 false false).1.uploadCalls = 0 := by
  decide

/-- C6: `upload_file` raises `FileNotFoundError` / `PermissionError` for a
missing or unreadable local file before any transfer attempt (the claim's
validation half), but for an ordinary transfer failure it does NOT return an
`UploadResult` with `success=False`: the `progress.update(..., message=...)`
calls pass a keyword `UploadProgress.update` does not define, so a
`TypeError` escapes `upload_file` after a single `rclone copy` invocation,
with any retry budget. -/
theorem upload_file_raises_on_ordinary_failure :
    upload_file envMissingFile true 3 = (Except.error PyExc.fileNotFoundError, 0) ∧
    upload_file envUnreadable true 3 = (Except.error PyExc.permissionError, 0) ∧
    upload_file envFailingTransfer true 0 = (Except.error PyExc.typeError, 1) ∧
    upload_file envFailingTransfer true 3 = (Except.error PyExc.typeError, 1) :=
  ⟨rfl, rfl, rfl, rfl⟩

/-- C10: in dry-run mode the aggregation loop of `process_videos` counts
`min(number of completed jobs, 5)` results — once `success_count +
failure_count` reaches 5 it stops consuming results — so a dry-run pass
reports at most 5 results however many items were dispatched. -/
theorem dry_run_counts_at_most_five (rs : List Bool) (stubsFor : VideoInfo → Stubs)
    (videos : List VideoInfo) (ledger : Ledger) (maxRetries : Nat) (sd : Bool) :
    (countResults true rs).1 + (countResults true rs).2 = min rs.length 5 ∧
    (process_videos stubsFor videos ledger maxRetries true sd).success
      + (process_videos stubsFor videos ledger maxRetries true sd).failure ≤ 5 := by
  constructor
  · have h := countGo_dry_sum rs 0 0 (by omega)
    simpa [countResults] using h
  · simp only [process_videos]
    exact countResults_dry_le _

/-- C2: every item whose id the ledger already reports as archived is dropped
by `process_videos` before dispatch: its id is never passed to the fetcher or
the uploader, and the pass behaves exactly as if the item were absent from
the input list (so it is counted as neither success nor failure). -/
theorem archived_item_skipped (stubsFor : VideoInfo → Stubs) (videos : List VideoInfo)
    (ledger : Ledger) (maxRetries : Nat) (dryRun sd : Bool) (id : String)
    (h : is_archived ledger id = true) :
    id ∉ (process_videos stubsFor videos ledger maxRetries dryRun sd).fetchedIds ∧
    id ∉ (process_videos stubsFor videos ledger maxRetries dryRun sd).uploadedIds ∧
    process_videos stubsFor videos ledger maxRetries dryRun sd =
      process_videos stubsFor (videos.filter (fun v => !is_archived ledger v.video_id))
        ledger maxRetries dryRun sd := by
  have key : ∀ x, (∃ v ∈ videos.filter (fun v => !is_archived ledger v.video_id),
      v.video_id = x) → is_archived ledger x = false := by
    intro x hx
    rcases hx with ⟨v, hv, hid⟩
    have hm := List.mem_filter.mp hv
    have hneg : is_archived ledger v.video_id = false := by
      have := hm.2
      simpa using this
    rw [← hid]
    exact hneg
  refine ⟨?_, ?_, ?_⟩
  · intro hmem
    have hx : id ∈ (runJobs stubsFor maxRetries sd
        (videos.filter (fun v => !is_archived ledger v.video_id)) ledger).2.1 := by
      simpa [process_videos] using hmem
    have := key id (runJobs_ids_sub stubsFor maxRetries sd _ ledger id (Or.inl hx))
    rw [h] at this
    simp at this
  · intro hmem
    have hx : id ∈ (runJobs stubsFor maxRetries sd
        (videos.filter (fun v => !is_archived ledger v.video_id)) ledger).2.2.1 := by
      simpa [process_videos] using hmem
    have := key id (runJobs_ids_sub stubsFor maxRetries sd _ ledger id (Or.inr hx))
    rw [h] at this
    simp at this
  · have hff : (videos.filter (fun v => !is_archived ledger v.video_id)).filter
        (fun v => !is_archived ledger v.video_id)
        = videos.filter (fun v => !is_archived ledger v.video_id) := by
      rw [List.filter_filter]
      have : (fun v : VideoInfo => !is_archived ledger v.video_id
          && !is_archived ledger v.video_id)
          = (fun v : VideoInfo => !is_archived ledger v.video_id) :=
        funext fun v => Bool.and_self _
      rw [this]
    simp only [process_videos, hff]

/-- Witness for `archived_item_skipped`: a ledger holding id "abc123" and a
pass listing that id together with a fresh one. -/
theorem archived_item_skipped_witness :
    is_archived [{ video_id := "abc123", youtube_title := "t", upload_timestamp := "s" }]
      "abc123" = true ∧
    ("abc123" ∉ (process_videos (fun _ => okStubs)
        [{ video_id := "abc123", title := "Old", published_at := "2023-01-01T00:00:00Z",
           duration := none, filesize := none, resolution := none }, demoVideo]
        [{ video_id := "abc123", youtube_title := "t", upload_timestamp := "s" }]
        3 false false).fetchedIds ∧
      "abc123" ∉ (process_videos (fun _ => okStubs)
        [{ video_id := "abc123", title := "Old", published_at := "2023-01-01T00:00:00Z",
           duration := none, filesize := none, resolution := none }, demoVideo]
        [{ video_id := "abc123", youtube_title := "t", upload_timestamp := "s" }]
        3 false false).uploadedIds ∧
      process_videos (fun _ => okStubs)
        [{ video_id := "abc123", title := "Old", published_at := "2023-01-01T00:00:00Z",
           duration := none, filesize := none, resolution := none }, demoVideo]
        [{ video_id := "abc123", youtube_title := "t", upload_timestamp := "s" }]
        3 false false =
      process_videos (fun _ => okStubs)
        ([{ video_id := "abc123", title := "Old", published_at := "2023-01-01T00:00:00Z",
            duration := none, filesize := none, resolution := none },
          demoVideo].filter (fun v => !is_archived
            [{ video_id := "abc123", youtube_title := "t", upload_timestamp := "s" }]
            v.video_id))
        [{ video_id := "abc123", youtube_title := "t", upload_timestamp := "s" }]
        3 false false) :=
  ⟨by decide, archived_item_skipped (fun _ => okStubs) _ _ 3 false false "abc123" (by decide)⟩

/-- C3 (amended): with an always-failing fetch stub, `process_video` invokes
the fetch step exactly `maxRetries` times (its loop runs attempts
`1..maxRetries`, with no delay of its own between attempts) before the job is
reported failed, and the uploader is never invoked; inside `download_video`
itself, an always-failing extraction is attempted exactly `maxRetries + 1`
times, and the backoff delays `min(2 ** attempt, 60)` slept between those
attempts are non-decreasing and capped at 60 seconds. -/
theorem retry_exhaustion_amended (maxRetries : Nat) (v : VideoInfo) (led : Ledger)
    (stubs : Stubs) (extract : Nat → Option String)
    (hd : ∀ n, stubs.download n = none) (he : ∀ n, extract n = none) :
    (process_video stubs v led maxRetries false false).1.fetchCalls = maxRetries ∧
    (process_video stubs v led maxRetries false false).2.1 = false ∧
    (process_video stubs v led maxRetries false false).1.uploadCalls = 0 ∧
    (download_video extract maxRetries).1 = maxRetries + 1 ∧
    List.Chain' (· ≤ ·) (download_video extract maxRetries).2.1 ∧
    (∀ d ∈ (download_video extract maxRetries).2.1, d ≤ 60) := by
  have hp := processVideoGo_fail stubs v maxRetries hd maxRetries 1
    { fetchCalls := 0, uploadCalls := 0, ledger := led }
  have hdl := dlGo_fail extract he (maxRetries + 1) 0
  have hdelays : (download_video extract maxRetries).2.1
      = (List.range' 1 maxRetries).map ytBackoff := by
    simp only [download_video, hdl]
    exact dlDelaysSeq_zero maxRetries
  refine ⟨?_, ?_, ?_, ?_, ?_, ?_⟩
  · simp [process_video, hp]
  · simp [process_video, hp]
  · simp [process_video, hp]
  · simp [download_video, hdl]
  · rw [hdelays]; exact chain_map_ytBackoff maxRetries 1
  · rw [hdelays]
    intro d hdm
    rcases List.mem_map.mp hdm with ⟨i, _, rfl⟩
    exact min_le_right _ _

/-- Witness for `retry_exhaustion_amended` with retry budget 3 and stubs that
always fail. -/
theorem retry_exhaustion_amended_witness :
    (∀ n, failingFetchStubs.download n = none) ∧
    (∀ n, (fun _ : Nat => (none : Option String)) n = none) ∧
    ((process_video failingFetchStubs demoVideo [] 3 false false).1.fetchCalls = 3 ∧
      (process_video failingFetchStubs demoVideo [] 3 false false).2.1 = false ∧
      (process_video failingFetchStubs demoVideo [] 3 false false).1.uploadCalls = 0 ∧
      (download_video (fun _ => none) 3).1 = 3 + 1 ∧
      List.Chain' (· ≤ ·) (download_video (fun _ => none) 3).2.1 ∧
      (∀ d ∈ (download_video (fun _ => none) 3).2.1, d ≤ 60)) :=
  ⟨fun _ => rfl, fun _ => rfl,
    retry_exhaustion_amended 3 demoVideo [] failingFetchStubs (fun _ => none)
      (fun _ => rfl) (fun _ => rfl)⟩

/-- C9: the computed rclone backoff `min(MIN_RETRY_DELAY * 2 ** attempt,
MAX_RETRY_DELAY)` doubles each attempt while below the cap and never exceeds
the cap, the jitter is at most 10% of the computed backoff, and for
consecutive attempts below the cap the total waited delay (backoff plus any
admissible jitter) does not decrease. -/
theorem upload_backoff_spec (attempt : Nat) (j j' : ℚ)
    (hj0 : 0 ≤ j) (hj : j ≤ backoffBase attempt * (1 / 10))
    (hj'0 : 0 ≤ j') (hj' : j' ≤ backoffBase (attempt + 1) * (1 / 10))
    (hcap : backoffBase (attempt + 1) < maxRetryDelay) :
    backoffBase (attempt + 1) = 2 * backoffBase attempt ∧
    backoffBase attempt ≤ maxRetryDelay ∧
    backoffBase (attempt + 1) ≤ maxRetryDelay ∧
    backoffBase attempt + j ≤ backoffBase (attempt + 1) + j' := by
  have hpow : (0 : ℚ) < 2 ^ attempt := by positivity
  have hlt : minRetryDelay * 2 ^ (attempt + 1) < maxRetryDelay := by
    rcases min_lt_iff.mp hcap with h | h
    · exact h
    · exact absurd h (lt_irrefl _)
  have hle : minRetryDelay * 2 ^ attempt ≤ minRetryDelay * 2 ^ (attempt + 1) := by
    simp only [minRetryDelay, one_mul]
    exact pow_le_pow_right₀ (by norm_num) (Nat.le_succ _)
  have heq1 : backoffBase (attempt + 1) = minRetryDelay * 2 ^ (attempt + 1) :=
    min_eq_left (le_of_lt hlt)
  have heq0 : backoffBase attempt = minRetryDelay * 2 ^ attempt :=
    min_eq_left (le_trans hle (le_of_lt hlt))
  refine ⟨?_, min_le_right _ _, min_le_right _ _, ?_⟩
  · rw [heq1, heq0]
    simp only [minRetryDelay, one_mul]
    ring
  · rw [heq0, heq1]
    rw [heq0] at hj
    simp only [minRetryDelay, one_mul] at *
    have h2 : (2 : ℚ) ^ (attempt + 1) = 2 * 2 ^ attempt := by ring
    rw [h2]
    linarith

/-- Helper evaluation: the computed backoff before the second retry is 2
seconds. -/
theorem backoffBase_one : backoffBase 1 = 2 := by
  unfold backoffBase minRetryDelay maxRetryDelay
  rw [min_eq_left (by norm_num)]
  norm_num

/-- Helper evaluation: the computed backoff before the third retry is 4
seconds. -/
theorem backoffBase_two : backoffBase 2 = 4 := by
  unfold backoffBase minRetryDelay maxRetryDelay
  rw [min_eq_left (by norm_num)]
  norm_num

/-- Witness for `upload_backoff_spec` at attempt 1 with zero jitter. -/
theorem upload_backoff_spec_witness :
    ((0 : ℚ) ≤ 0) ∧ ((0 : ℚ) ≤ backoffBase 1 * (1 / 10)) ∧
    ((0 : ℚ) ≤ backoffBase 2 * (1 / 10)) ∧ (backoffBase 2 < maxRetryDelay) ∧
    (backoffBase 2 = 2 * backoffBase 1 ∧ backoffBase 1 ≤ maxRetryDelay ∧
      backoffBase 2 ≤ maxRetryDelay ∧ backoffBase 1 + 0 ≤ backoffBase 2 + 0) :=
  ⟨le_refl 0, by rw [backoffBase_one]; norm_num, by rw [backoffBase_two]; norm_num,
    by rw [backoffBase_two]; unfold maxRetryDelay; norm_num,
    upload_backoff_spec 1 0 0 (le_refl 0) (by rw [backoffBase_one]; norm_num)
      (le_refl 0) (by rw [backoffBase_two]; norm_num)
      (by rw [backoffBase_two]; unfold maxRetryDelay; norm_num)⟩

theorem lexLe_total : ∀ (a b : List Char), lexLe a b = true ∨ lexLe b a = true := by
  intro a
  induction a with
  | nil => intro b; left; rfl
  | cons x xs ih =>
    intro b
    cases b with
    | nil => right; rfl
    | cons y ys =>
      by_cases hxy : x < y
      · left; simp [lexLe, hxy]
      · by_cases hyx : y < x
        · right; simp [lexLe, hyx]
        · rcases ih ys with h | h
          · left; simp [lexLe, hxy, hyx, h]
          · right; simp [lexLe, hxy, hyx, h]

theorem lexLe_trans : ∀ (a b c : List Char),
    lexLe a b = true → lexLe b c = true → lexLe a c = true := by
  intro a
  induction a with
  | nil => intro b c _ _; rfl
  | cons x xs ih =>
    intro b c hab hbc
    cases b with
    | nil => simp [lexLe] at hab
    | cons y ys =>
      cases c with
      | nil => simp [lexLe] at hbc
      | cons z zs =>
        simp only [lexLe] at hab hbc ⊢
        by_cases hxy : x < y
        · by_cases hyz : y < z
          · simp [lt_trans hxy hyz]
          · by_cases hzy : z < y
            · rw [if_neg hyz, if_pos hzy] at hbc; simp at hbc
            · have hyzeq : y = z := le_antisymm (not_lt.mp hzy) (not_lt.mp hyz)
              subst hyzeq
              simp [hxy]
        · by_cases hyx : y < x
          · rw [if_neg hxy, if_pos hyx] at hab; simp at hab
          · have hxyeq : x = y := le_antisymm (not_lt.mp hyx) (not_lt.mp hxy)
            subst hxyeq
            rw [if_neg hxy, if_neg hyx] at hab
            by_cases hxz : x < z
            · simp [hxz]
            · by_cases hzx : z < x
              · rw [if_neg hxz, if_pos hzx] at hbc; simp at hbc
              · have hxzeq : x = z := le_antisymm (not_lt.mp hzx) (not_lt.mp hxz)
                subst hxzeq
                rw [if_neg hxz, if_neg hzx] at hbc ⊢
                exact ih ys zs hab hbc

theorem lexLe_nil_right : ∀ (l : List Char), lexLe l [] = true → l = [] := by
  intro l h
  cases l with
  | nil => rfl
  | cons x xs => simp [lexLe] at h

theorem length_ordInsertDesc (v : VideoInfo) :
    ∀ l, (ordInsertDesc v l).length = l.length + 1 := by
  intro l
  induction l with
  | nil => rfl
  | cons w ws ih =>
    simp only [ordInsertDesc]
    split_ifs
    · simp
    · simp [ih]

theorem mem_ordInsertDesc (v x : VideoInfo) :
    ∀ l, x ∈ ordInsertDesc v l → x = v ∨ x ∈ l := by
  intro l
  induction l with
  | nil => intro h; left; simpa [ordInsertDesc] using h
  | cons w ws ih =>
    intro h
    simp only [ordInsertDesc] at h
    split_ifs at h with hc
    · rcases List.mem_cons.mp h with h | h
      · left; exact h
      · right; exact h
    · rcases List.mem_cons.mp h with h | h
      · right; exact List.mem_cons.mpr (Or.inl h)
      · rcases ih h with h | h
        · left; exact h
        · right; exact List.mem_cons.mpr (Or.inr h)

theorem pairwise_ordInsertDesc (v : VideoInfo) :
    ∀ l, List.Pairwise pubDescR l → List.Pairwise pubDescR (ordInsertDesc v l) := by
  intro l
  induction l with
  | nil => intro _; simp [ordInsertDesc]
  | cons w ws ih =>
    intro hp
    rcases List.pairwise_cons.mp hp with ⟨hw, hws⟩
    simp only [ordInsertDesc]
    split_ifs with hc
    · refine List.pairwise_cons.mpr ⟨?_, hp⟩
      intro y hy
      rcases List.mem_cons.mp hy with rfl | hy
      · exact hc
      · exact lexLe_trans _ _ _ (hw y hy) hc
    · have hvw : lexLe v.published_at.data w.published_at.data = true := by
        rcases lexLe_total w.published_at.data v.published_at.data with h | h
        · exact absurd h hc
        · exact h
      refine List.pairwise_cons.mpr ⟨?_, ih hws⟩
      intro y hy
      rcases mem_ordInsertDesc v y ws hy with rfl | hy
      · exact hvw
      · exact hw y hy

theorem pairwise_sortPubDesc : ∀ l, List.Pairwise pubDescR (sortPubDesc l) := by
  intro l
  induction l with
  | nil => simp [sortPubDesc]
  | cons v vs ih => exact pairwise_ordInsertDesc v _ ih

theorem length_sortPubDesc : ∀ l, (sortPubDesc l).length = l.length := by
  intro l
  induction l with
  | nil => rfl
  | cons v vs ih =>
    show (ordInsertDesc v (sortPubDesc vs)).length = vs.length + 1
    rw [length_ordInsertDesc, ih]

/-- C7: `fetch_video_list` returns at most `maxResults` items, sorted by
publish time descending (the `published_at` key compared as Python compares
strings), and any item with an unknown (empty) publish time sorts after every
item with a known one. -/
theorem fetch_video_list_spec (entries : List YdlEntry) (maxResults : Nat) :
    (fetch_video_list entries maxResults).length ≤ maxResults ∧
    List.Pairwise pubDescR (fetch_video_list entries maxResults) ∧
    List.Pairwise (fun a b => a.published_at = "" → b.published_at = "")
      (fetch_video_list entries maxResults) := by
  refine ⟨?_, pairwise_sortPubDesc _, ?_⟩
  · simp only [fetch_video_list]
    rw [length_sortPubDesc]
    simp only [fetchVideosYtDlp, List.length_map, List.length_take]
    exact min_le_left _ _
  · have hp := pairwise_sortPubDesc (fetchVideosYtDlp entries maxResults)
    refine hp.imp ?_
    intro a b hab hae
    have hdat : b.published_at.data = [] := by
      apply lexLe_nil_right
      have he : a.published_at.data = ([] : List Char) := by rw [hae]
      rw [← he]
      exact hab
    exact String.ext (by rw [hdat])

theorem mem_of_mem_rsplitSpaceHead (c : Char) (l : List Char) :
    c ∈ rsplitSpaceHead l → c ∈ l := by
  intro h
  unfold rsplitSpaceHead at h
  split_ifs at h with hc
  · rw [List.mem_reverse] at h
    have h1 : c ∈ l.reverse.dropWhile (fun c => c != ' ') :=
      (List.tail_sublist _).subset h
    have h2 : c ∈ l.reverse := (List.dropWhile_sublist _).subset h1
    exact List.mem_reverse.mp h2
  · exact h

theorem length_rsplitSpaceHead_le (l : List Char) :
    (rsplitSpaceHead l).length ≤ l.length := by
  unfold rsplitSpaceHead
  split_ifs with hc
  · rw [List.length_reverse]
    calc ((l.reverse.dropWhile (fun c => c != ' ')).tail).length
        ≤ (l.reverse.dropWhile (fun c => c != ' ')).length :=
          (List.tail_sublist _).length_le
      _ ≤ l.reverse.length := (List.dropWhile_sublist _).length_le
      _ = l.length := List.length_reverse l
  · exact le_refl _

theorem mem_of_mem_stripPy (c : Char) (l : List Char) : c ∈ stripPy l → c ∈ l := by
  intro h
  unfold stripPy at h
  rw [List.mem_reverse] at h
  have h1 := (List.dropWhile_sublist (l := (l.dropWhile
    (fun c => pyWhitespace.contains c)).reverse) (fun c => pyWhitespace.contains c)).subset h
  rw [List.mem_reverse] at h1
  exact (List.dropWhile_sublist _).subset h1

theorem length_stripPy_le (l : List Char) : (stripPy l).length ≤ l.length := by
  unfold stripPy
  rw [List.length_reverse]
  calc ((l.dropWhile (fun c => pyWhitespace.contains c)).reverse.dropWhile
        (fun c => pyWhitespace.contains c)).length
      ≤ (l.dropWhile (fun c => pyWhitespace.contains c)).reverse.length :=
        (List.dropWhile_sublist _).length_le
    _ = (l.dropWhile (fun c => pyWhitespace.contains c)).length :=
        List.length_reverse _
    _ ≤ l.length := (List.dropWhile_sublist _).length_le

theorem replaceInvalid_no_invalid (t : List Char) :
    ∀ c ∈ replaceInvalid t, c ∉ invalidFileChars := by
  intro c hc
  rcases List.mem_map.mp hc with ⟨d, _, rfl⟩
  by_cases hd : d ∈ invalidFileChars
  · simp only [if_pos hd]
    decide
  · simp only [if_neg hd]
    exact hd

theorem sanitize_no_invalid (t : List Char) :
    ∀ c ∈ sanitize_filename t, c ∉ invalidFileChars := by
  intro c hc
  simp only [sanitize_filename] at hc
  have hc1 := mem_of_mem_stripPy c _ hc
  split_ifs at hc1 with hlen
  · have hc2 := mem_of_mem_rsplitSpaceHead c _ hc1
    have hc3 : c ∈ replaceInvalid t := (List.take_sublist _ _).subset hc2
    exact replaceInvalid_no_invalid t c hc3
  · exact replaceInvalid_no_invalid t c hc1

theorem sanitize_length_le (t : List Char) : (sanitize_filename t).length ≤ 150 := by
  simp only [sanitize_filename]
  by_cases hlen : (replaceInvalid t).length > 150
  · rw [if_pos hlen]
    calc (stripPy (rsplitSpaceHead ((replaceInvalid t).take 150))).length
        ≤ (rsplitSpaceHead ((replaceInvalid t).take 150)).length := length_stripPy_le _
      _ ≤ ((replaceInvalid t).take 150).length := length_rsplitSpaceHead_le _
      _ ≤ 150 := by rw [List.length_take]; exact min_le_left _ _
  · rw [if_neg hlen]
    have := length_stripPy_le (replaceInvalid t)
    omega

theorem takeWhile_append_bracket (r : List Char) : ∀ (l : List Char),
    (∀ c ∈ l, (c != '[') = true) →
    List.takeWhile (fun c => c != '[') (l ++ '[' :: r) = l := by
  intro l
  induction l with
  | nil =>
    intro _
    simp [List.takeWhile_cons]
  | cons a as ih =>
    intro h
    have ha := h a (List.mem_cons_self a as)
    simp only [List.cons_append, List.takeWhile_cons, ha, if_true]
    rw [ih (fun c hc => h c (List.mem_cons_of_mem a hc))]

theorem downloadBaseName_inj (id1 id2 t1 t2 : List Char)
    (h1 : '[' ∉ id1) (h2 : '[' ∉ id2) (hne : id1 ≠ id2) :
    downloadBaseName id1 t1 ≠ downloadBaseName id2 t2 := by
  intro heq
  unfold downloadBaseName at heq
  have heq1 : sanitize_filename t1 ++ (' ' :: '[' :: id1)
      = sanitize_filename t2 ++ (' ' :: '[' :: id2) :=
    (List.append_left_inj _).mp heq
  have heqr := congrArg List.reverse heq1
  simp only [List.reverse_append, List.reverse_cons, List.append_assoc,
    List.singleton_append] at heqr
  have htw := congrArg (List.takeWhile (fun c => c != '[')) heqr
  have hb1 : ∀ c ∈ id1.reverse, (c != '[') = true := by
    intro c hcm
    rw [List.mem_reverse] at hcm
    simp only [bne_iff_ne, ne_eq]
    intro hcc
    exact h1 (hcc ▸ hcm)
  have hb2 : ∀ c ∈ id2.reverse, (c != '[') = true := by
    intro c hcm
    rw [List.mem_reverse] at hcm
    simp only [bne_iff_ne, ne_eq]
    intro hcc
    exact h2 (hcc ▸ hcm)
  simp only [List.cons_append, List.nil_append] at htw
  rw [takeWhile_append_bracket _ id1.reverse hb1,
    takeWhile_append_bracket _ id2.reverse hb2] at htw
  exact hne (List.reverse_injective htw)

/-- C8: `sanitize_filename` yields a name holding none of the characters
`\\ / : * ? " < > |`, of length at most 150; and since `download_video`
appends the item id in brackets to the sanitized title, two downloads with
distinct ids (ids free of the bracket character, as YouTube ids are) can
never collide, whatever their titles. -/
theorem sanitize_filename_spec (title videoId1 videoId2 title1 title2 : List Char) :
    (∀ c ∈ sanitize_filename title, c ∉ invalidFileChars) ∧
    (sanitize_filename title).length ≤ 150 ∧
    ('[' ∉ videoId1 → '[' ∉ videoId2 → videoId1 ≠ videoId2 →
      downloadBaseName videoId1 title1 ≠ downloadBaseName videoId2 title2) :=
  ⟨sanitize_no_invalid title, sanitize_length_le title,
    fun h1 h2 hne => downloadBaseName_inj videoId1 videoId2 title1 title2 h1 h2 hne⟩

/-- Witness for `sanitize_filename_spec` on the end-to-end scenario title. -/
theorem sanitize_filename_spec_witness :
    ('[' ∉ ['v', '1']) ∧ ('[' ∉ ['v', '2']) ∧ (['v', '1'] ≠ ['v', '2']) ∧
    ((∀ c ∈ sanitize_filename "Test / Video?".data, c ∉ invalidFileChars) ∧
      (sanitize_filename "Test / Video?".data).length ≤ 150 ∧
      downloadBaseName ['v', '1'] "Test / Video?".data
        ≠ downloadBaseName ['v', '2'] "Test / Video?".data) :=
  ⟨by decide, by decide, by decide,
    by
      have h := sanitize_filename_spec "Test / Video?".data ['v', '1'] ['v', '2']
        "Test / Video?".data "Test / Video?".data
      exact ⟨h.1, h.2.1, h.2.2 (by decide) (by decide) (by decide)⟩⟩
